import Mathlib

set_option autoImplicit false
set_option maxHeartbeats 1000000
set_option linter.unusedSectionVars false
set_option linter.unusedVariables false

/-!
Verification of the dependency-aware block partitioner
(`aptos-move/aptos-vm/src/sharded_block_executor/block_partitioner/dependency_aware_partitioner.rs`),
the multi-version store routing facade (`aptos-move/mvhashmap/src/lib.rs`), and the
multi-region chaos harness (`testsuite/testcases/src/multi_region_simulation_test.rs`),
against a shallow embedding of the sources.

Transactions are embedded generically: `L` is the type of storage locations and `A` the
type of sender account identifiers, both with decidable equality (hash/eq in the source).
-/

/-- An analyzed transaction, as consumed by the partitioner: it exposes `read_hints()`,
`write_hints()` (sets of storage locations, embedded as lists) and `get_sender()`
(an optional sender account), which is all the partitioner inspects. -/
structure AnalyzedTransaction (L A : Type) where
  read_hints : List L
  write_hints : List L
  sender : Option A
deriving DecidableEq

instance {L A : Type} : Inhabited (AnalyzedTransaction L A) :=
  ⟨⟨[], [], none⟩⟩

variable {L A : Type} [DecidableEq L] [DecidableEq A]

/-- Indexing `transactions[index]` of the source; out-of-range access never happens at call
sites (all indices come from `0 .. transactions.len()`). -/
def txnAt (txns : List (AnalyzedTransaction L A)) (i : Nat) : AnalyzedTransaction L A :=
  txns.getD i default

/-- The source status enum for a transaction after partitioning. -/
inductive TxnPartitioningStatus where
  | Accepted
  | Discarded
deriving DecidableEq

/-- The `txn_statuses: HashMap<usize, TxnPartitioningStatus>` of the source, embedded as
a function to `Option` (`none` = key absent). -/
def StatusMap : Type := Nat → Option TxnPartitioningStatus

/-- The map update `txn_statuses.insert(i, s)`. -/
def insertStatus (m : StatusMap) (i : Nat) (s : TxnPartitioningStatus) : StatusMap :=
  fun j => if j = i then some s else m j

/-- The chunk size `(total_txns as f64 / num_shards as f64).ceil() as usize` (source
line 35).  For `0 < num_shards` (and block sizes below `2^53`, where the `f64`
division and `ceil` are exact) this is the ceiling division; for `num_shards = 0` and
`0 < total_txns` the `f64` division yields `+inf` and Rust's saturating float-to-int
cast yields `usize::MAX = 2^64 - 1`. -/
def txnsPerShard (totalTxns numShards : Nat) : Nat :=
  if numShards = 0 then 2 ^ 64 - 1 else (totalTxns + numShards - 1) / numShards

/-- Modelled from the spec: `block_partitioner::get_shard_for_index` (the
`block_partitioner` module file itself is not among the sources; its in-repo tests use
it as `get_shard_for_index(txns_per_shard, index)`): positional chunking
`shard(index) = index / txns_per_shard`.  The divisor is never zero at call sites
(proved for the partitioner in the totality theorem). -/
def get_shard_for_index (txns_per_shard index : Nat) : Nat :=
  index / txns_per_shard

/-- A write hint of `u` conflicts with a read or write hint of `v`. -/
def writeConflict (u v : AnalyzedTransaction L A) : Bool :=
  u.write_hints.any (fun loc =>
    decide (loc ∈ v.read_hints) || decide (loc ∈ v.write_hints))

/-- Modelled from the spec: `transaction_dependency_graph.rs` (`DependencyGraph`,
`Node`) is not among the sources.  The spec's edge relation: an edge between `u` and
`v` with `u.index < v.index` exists iff a write of `u` conflicts with a read or write
of `v`.  `graph.get_dependent_nodes(Node::new(txn, i))` is pinned down by the in-repo
tests (`test_single_sender_txns`, `test_conflicting_sender_ordering`) to return the
`u`-side neighbours of `v = txn_i`, i.e. the earlier transactions whose write hints
intersect `txn_i`'s read or write hints (an absent vertex and an empty neighbour set
are indistinguishable in the partitioner loop, so the `Option` around the set is
dropped). -/
def dependentIndices (txns : List (AnalyzedTransaction L A)) (i : Nat) : List Nat :=
  (List.range txns.length).filter
    (fun j => decide (j < i) && writeConflict (txnAt txns j) (txnAt txns i))

/-- One iteration of the reverse scan (source lines 44-71) at transaction `index = i`:
for each node of `get_dependent_nodes`, a node whose recorded status is `Discarded` is
skipped; otherwise, if its shard differs from the current shard, the transaction is
discarded.  The computed status is inserted into the status map. -/
def reverseScanStep (txns : List (AnalyzedTransaction L A)) (tps : Nat)
    (m : StatusMap) (i : Nat) : StatusMap :=
  insertStatus m i
    (if (dependentIndices txns i).any (fun j =>
          match m j with
          | some TxnPartitioningStatus.Discarded => false
          | _ => decide (get_shard_for_index tps j ≠ get_shard_for_index tps i))
      then TxnPartitioningStatus.Discarded
      else TxnPartitioningStatus.Accepted)

/-- The reverse scan: `for (index, txn) in transactions.iter().enumerate().rev()`. -/
def reverseScan (txns : List (AnalyzedTransaction L A)) (tps : Nat) : StatusMap :=
  ((List.range txns.length).reverse).foldl (reverseScanStep txns tps) (fun _ => none)

/-- Whether the reverse scan discards transaction `i`: some earlier conflicting
transaction sits in a different shard (closed form of the scan, proved equivalent to
`reverseScan` below). -/
def revDiscarded (txns : List (AnalyzedTransaction L A)) (tps : Nat) (i : Nat) : Bool :=
  (dependentIndices txns i).any (fun j =>
    decide (get_shard_for_index tps j ≠ get_shard_for_index tps i))

/-- Closed form of the status the reverse scan assigns to transaction `i`. -/
def revStatus (txns : List (AnalyzedTransaction L A)) (tps : Nat) (i : Nat) :
    TxnPartitioningStatus :=
  if revDiscarded txns tps i then TxnPartitioningStatus.Discarded
  else TxnPartitioningStatus.Accepted

/-- One iteration of the sender-discard pass (source lines 74-90) at transaction `i`.
State: the status map and the `discarded_senders` set (embedded as a list).  The
`txn_statuses.get(&index).unwrap()` is embedded as a comparison with
`some Discarded`; the `none` case is unreachable (the reverse scan populates every
index, proved in the totality theorem). -/
def senderStep (txns : List (AnalyzedTransaction L A))
    (st : StatusMap × List A) (i : Nat) : StatusMap × List A :=
  match (txnAt txns i).sender with
  | some s =>
    if s ∈ st.2 then (insertStatus st.1 i TxnPartitioningStatus.Discarded, st.2)
    else if st.1 i = some TxnPartitioningStatus.Discarded then (st.1, s :: st.2)
    else st
  | none => st

/-- The forward sender-discard pass over `0 .. transactions.len()`. -/
def senderPass (txns : List (AnalyzedTransaction L A)) (m0 : StatusMap) :
    StatusMap × List A :=
  (List.range txns.length).foldl (senderStep txns) (m0, [])

/-- The `discarded_senders` set after the sender pass has processed indices `< i`. -/
def sendersBefore (txns : List (AnalyzedTransaction L A)) (m0 : StatusMap) (i : Nat) :
    List A :=
  ((List.range i).foldl (senderStep txns) (m0, [])).2

/-- The status map the partitioner consults when building the final maps: reverse scan
followed by the sender pass. -/
def finalStatusMap (txns : List (AnalyzedTransaction L A)) (num_shards : Nat) :
    StatusMap :=
  (senderPass txns (reverseScan txns (txnsPerShard txns.length num_shards))).1

/-- A `HashMap<usize, Vec<T>>` of shard index to transactions, embedded as an
association list (insertion-ordered; the claims only inspect it through lookups). -/
def ShardMap (T : Type) : Type := List (Nat × List T)

/-- The lookup `map.get(&s)`. -/
def lookupShard {T : Type} : ShardMap T → Nat → Option (List T)
  | [], _ => none
  | (sh, l) :: rest, s => if sh = s then some l else lookupShard rest s

/-- The update `map.entry(shard).or_insert_with(Vec::new).push(t)`. -/
def pushToShard {T : Type} : ShardMap T → Nat → T → ShardMap T
  | [], s, t => [(s, [t])]
  | (sh, l) :: rest, s, t =>
    if sh = s then (sh, l ++ [t]) :: rest else (sh, l) :: pushToShard rest s t

/-- One iteration of the final bucketing loop (source lines 97-115): push the
transaction into the accepted or rejected map according to its recorded status.  The
`none` case models the `.unwrap()` and is unreachable (totality theorem). -/
def statusStep {T : Type} (m : StatusMap) (tps : Nat)
    (acc : ShardMap T × ShardMap T) (p : Nat × T) : ShardMap T × ShardMap T :=
  match m p.1 with
  | some TxnPartitioningStatus.Accepted =>
      (pushToShard acc.1 (get_shard_for_index tps p.1) p.2, acc.2)
  | some TxnPartitioningStatus.Discarded =>
      (acc.1, pushToShard acc.2 (get_shard_for_index tps p.1) p.2)
  | none => acc

/-- The enumeration `transactions.into_iter().enumerate()`. -/
def enumTxns (txns : List (AnalyzedTransaction L A)) :
    List (Nat × AnalyzedTransaction L A) :=
  (List.range txns.length).map (fun i => (i, txnAt txns i))

/-- The final accepted/rejected maps (source lines 92-116). -/
def finalMaps (txns : List (AnalyzedTransaction L A)) (m : StatusMap) (tps : Nat) :
    ShardMap (AnalyzedTransaction L A) × ShardMap (AnalyzedTransaction L A) :=
  (enumTxns txns).foldl (statusStep m tps) ([], [])

/-- The partitioner `DependencyAwareUniformPartitioner::partition` (source lines 23-117). -/
def partition (txns : List (AnalyzedTransaction L A)) (num_shards : Nat) :
    ShardMap (AnalyzedTransaction L A) × ShardMap (AnalyzedTransaction L A) :=
  if txns.length = 0 then ([], [])
  else finalMaps txns (finalStatusMap txns num_shards) (txnsPerShard txns.length num_shards)

/-- Returns `some l` for a non-empty list, `none` for the empty one (an absent shard key). -/
def optList {T : Type} : List T → Option (List T)
  | [] => none
  | l => some l

/-! ### MVHashMap routing facade (`aptos-move/mvhashmap/src/lib.rs`)

The facade is generic over the key type `K` (with the `ModulePath` capability), the
write value type `V` (`Op<AptosWrite>` in the source), the delta type `D` (`DeltaOp`)
and the executable type `X`. -/

/-- The `ModulePath` trait: `key.module_path()` reports the module the key denotes, if
any (module identities are abstracted as `Nat`). -/
class ModulePath (K : Type) where
  module_path : K → Option Nat

/-- The pair `Version = (TxnIndex, Incarnation)`. -/
def Version : Type := Nat × Nat

/-- The descriptor `ExecutableDescriptor`: either the storage version or the hash of a module
published during the block (digests abstracted as `Nat`). -/
inductive ExecutableDescriptor where
  | StorageVersion
  | PublishedModuleHash (digest : Nat)
deriving DecidableEq

/-- Modelled from the spec: `versioned_data.rs` is not among the sources.  Only the
interface of the data half is needed for the routing claims, so an operation record
is kept: a write (keyed by a full `(txn_idx, incarnation)` version), an estimate
mark, a delete, or a delta append. -/
inductive DataOp (K V D : Type) where
  | write (key : K) (version : Version) (value : V)
  | mark_estimate (key : K) (txn_idx : Nat)
  | delete (key : K) (txn_idx : Nat)
  | add_delta (key : K) (txn_idx : Nat) (delta : D)

/-- The key an operation addresses. -/
def DataOp.key {K V D : Type} : DataOp K V D → K
  | DataOp.write k _ _ => k
  | DataOp.mark_estimate k _ => k
  | DataOp.delete k _ => k
  | DataOp.add_delta k _ _ => k

/-- The transaction index of an operation (a write carries it inside its version). -/
def DataOp.txn_idx {K V D : Type} : DataOp K V D → Nat
  | DataOp.write _ v _ => v.1
  | DataOp.mark_estimate _ t => t
  | DataOp.delete _ t => t
  | DataOp.add_delta _ t _ => t

/-- Modelled from the spec: the data half of the store, embedded as the sequence of
operations it has accepted. -/
structure VersionedData (K V D : Type) where
  ops : List (DataOp K V D)

/-- The constructor `VersionedData::new()`: the empty data half. -/
def VersionedData.new {K V D : Type} : VersionedData K V D := ⟨[]⟩

def VersionedData.write {K V D : Type} (d : VersionedData K V D) (key : K)
    (version : Version) (value : V) : VersionedData K V D :=
  ⟨d.ops ++ [DataOp.write key version value]⟩

def VersionedData.mark_estimate {K V D : Type} (d : VersionedData K V D) (key : K)
    (txn_idx : Nat) : VersionedData K V D :=
  ⟨d.ops ++ [DataOp.mark_estimate key txn_idx]⟩

def VersionedData.delete {K V D : Type} (d : VersionedData K V D) (key : K)
    (txn_idx : Nat) : VersionedData K V D :=
  ⟨d.ops ++ [DataOp.delete key txn_idx]⟩

def VersionedData.add_delta {K V D : Type} (d : VersionedData K V D) (key : K)
    (txn_idx : Nat) (delta : D) : VersionedData K V D :=
  ⟨d.ops ++ [DataOp.add_delta key txn_idx delta]⟩

/-- Modelled from the spec: the §4.1 read consumes the history of the requested key
below the requesting transaction index; `fetch_data` is embedded as that slice of the
data half's record (its concrete scan result is not the subject of any claim). -/
def VersionedData.fetch_data {K V D : Type} [DecidableEq K] (d : VersionedData K V D)
    (key : K) (txn_idx : Nat) : List (DataOp K V D) :=
  d.ops.filter (fun op => decide (op.key = key) && decide (op.txn_idx < txn_idx))

/-- Modelled from the spec: `versioned_code.rs` is not among the sources.  Operation
record of the code half: a module write (keyed by `txn_idx` only — the facade passes
`version.0`), an estimate mark, a delete, or an executable installation keyed by its
descriptor. -/
inductive CodeOp (K V X : Type) where
  | write (key : K) (txn_idx : Nat) (value : V)
  | mark_estimate (key : K) (txn_idx : Nat)
  | delete (key : K) (txn_idx : Nat)
  | store_executable (key : K) (descriptor : ExecutableDescriptor) (executable : X)

/-- The key a code operation addresses. -/
def CodeOp.key {K V X : Type} : CodeOp K V X → K
  | CodeOp.write k _ _ => k
  | CodeOp.mark_estimate k _ => k
  | CodeOp.delete k _ => k
  | CodeOp.store_executable k _ _ => k

/-- Modelled from the spec: the code half of the store, embedded as the sequence of
operations it has accepted. -/
structure VersionedCode (K V X : Type) where
  ops : List (CodeOp K V X)

/-- The default `VersionedCode::default()`: the empty code cache. -/
instance {K V X : Type} : Inhabited (VersionedCode K V X) := ⟨⟨[]⟩⟩

def VersionedCode.write {K V X : Type} (c : VersionedCode K V X) (key : K)
    (txn_idx : Nat) (value : V) : VersionedCode K V X :=
  ⟨c.ops ++ [CodeOp.write key txn_idx value]⟩

def VersionedCode.mark_estimate {K V X : Type} (c : VersionedCode K V X) (key : K)
    (txn_idx : Nat) : VersionedCode K V X :=
  ⟨c.ops ++ [CodeOp.mark_estimate key txn_idx]⟩

def VersionedCode.delete {K V X : Type} (c : VersionedCode K V X) (key : K)
    (txn_idx : Nat) : VersionedCode K V X :=
  ⟨c.ops ++ [CodeOp.delete key txn_idx]⟩

def VersionedCode.store_executable {K V X : Type} (c : VersionedCode K V X) (key : K)
    (descriptor : ExecutableDescriptor) (executable : X) : VersionedCode K V X :=
  ⟨c.ops ++ [CodeOp.store_executable key descriptor executable]⟩

/-- Modelled from the spec: as for `fetch_data`, `fetch_code` is embedded as the
per-key slice of the code half's record that the §4.2 read consumes. -/
def VersionedCode.fetch_code {K V X : Type} [DecidableEq K] (c : VersionedCode K V X)
    (key : K) (txn_idx : Nat) : List (CodeOp K V X) :=
  c.ops.filter (fun op => decide (op.key = key))

/-- The store `MVHashMap { data, code }` (source lines 34-37). -/
structure MVHashMap (K V D X : Type) where
  data : VersionedData K V D
  code : VersionedCode K V X

/-- The constructor `MVHashMap::new(code_cache)` (source lines 44-49): a fresh data half, and the code
half passed in (`unwrap_or_default` — an empty one when `None`). -/
def MVHashMap.new {K V D X : Type} (code_cache : Option (VersionedCode K V X)) :
    MVHashMap K V D X :=
  { data := VersionedData.new, code := code_cache.getD default }

/-- The instance `impl Default for MVHashMap`: `Self::new(None)` (source lines 123-127). -/
instance {K V D X : Type} : Inhabited (MVHashMap K V D X) := ⟨MVHashMap.new none⟩

/-- The method `MVHashMap::take` (source lines 51-53): surrender both halves. -/
def MVHashMap.take {K V D X : Type} (m : MVHashMap K V D X) :
    VersionedData K V D × VersionedCode K V X :=
  (m.data, m.code)

/-- The method `MVHashMap::mark_estimate` (source lines 57-62): dispatch on `key.module_path()`. -/
def MVHashMap.mark_estimate {K V D X : Type} [ModulePath K] (m : MVHashMap K V D X)
    (key : K) (txn_idx : Nat) : MVHashMap K V D X :=
  match ModulePath.module_path key with
  | some _ => { m with code := m.code.mark_estimate key txn_idx }
  | none => { m with data := m.data.mark_estimate key txn_idx }

/-- The method `MVHashMap::delete` (source lines 66-72): dispatch on `key.module_path()`. -/
def MVHashMap.delete {K V D X : Type} [ModulePath K] (m : MVHashMap K V D X)
    (key : K) (txn_idx : Nat) : MVHashMap K V D X :=
  match ModulePath.module_path key with
  | some _ => { m with code := m.code.delete key txn_idx }
  | none => { m with data := m.data.delete key txn_idx }

/-- The method `MVHashMap::write` (source lines 75-80): dispatch on `key.module_path()`; the code
half receives only `version.0`, the transaction index. -/
def MVHashMap.write {K V D X : Type} [ModulePath K] (m : MVHashMap K V D X)
    (key : K) (version : Version) (value : V) : MVHashMap K V D X :=
  match ModulePath.module_path key with
  | some _ => { m with code := m.code.write key version.1 value }
  | none => { m with data := m.data.write key version value }

/-- The method `MVHashMap::add_delta` (source lines 86-93): the `debug_assert!` that a delta is
never stored at a module path is embedded as the error case (a panic in checked
builds); otherwise the delta is forwarded to the data half. -/
def MVHashMap.add_delta {K V D X : Type} [ModulePath K] (m : MVHashMap K V D X)
    (key : K) (txn_idx : Nat) (delta : D) : Except String (MVHashMap K V D X) :=
  if (ModulePath.module_path key).isSome then
    Except.error ("Delta must be stored at a path corresponding to data")
  else Except.ok { m with data := m.data.add_delta key txn_idx delta }

/-- The method `MVHashMap::fetch_data` (source lines 96-102): always served by the data half. -/
def MVHashMap.fetch_data {K V D X : Type} [DecidableEq K] (m : MVHashMap K V D X)
    (key : K) (txn_idx : Nat) : List (DataOp K V D) :=
  m.data.fetch_data key txn_idx

/-- The method `MVHashMap::store_executable` (source lines 110-112): always the code half. -/
def MVHashMap.store_executable {K V D X : Type} (m : MVHashMap K V D X) (key : K)
    (descriptor : ExecutableDescriptor) (executable : X) : MVHashMap K V D X :=
  { m with code := m.code.store_executable key descriptor executable }

/-- The method `MVHashMap::fetch_code` (source lines 114-120): always served by the code half. -/
def MVHashMap.fetch_code {K V D X : Type} [DecidableEq K] (m : MVHashMap K V D X)
    (key : K) (txn_idx : Nat) : List (CodeOp K V X) :=
  m.code.fetch_code key txn_idx


/-- A two-point key type instantiating the store in witnesses: `codeKey` is a module
path, `dataKey` is not. -/
inductive TestKey where
  | dataKey
  | codeKey
deriving DecidableEq

instance : ModulePath TestKey :=
  ⟨fun k => match k with | TestKey.codeKey => some 0 | TestKey.dataKey => none⟩


/-! ### Multi-region chaos harness
(`testsuite/testcases/src/multi_region_simulation_test.rs`) -/

/-- One `validator.set_failpoint(name, actions)` request issued by the harness. -/
structure SetFailpointCall where
  validator : String
  name : String
  actions : String
deriving DecidableEq

/-- The harness step `add_execution_delay` (source lines 140-176): for every validator, set the
failpoint `aptos_vm::execution::user_transaction` to
`"{sleep_fraction}%delay({inject_delay_per_transaction_ms})"`.  The per-validator
randomly drawn percentage is embedded as an oracle from the validator name. -/
def add_execution_delay (validators : List String) (sleep_fraction : String → Nat)
    (inject_delay_per_transaction_ms : Nat) : List SetFailpointCall :=
  validators.map (fun v =>
    { validator := v,
      name := "aptos_vm::execution::user_transaction",
      actions := toString (sleep_fraction v) ++ "%delay("
        ++ toString inject_delay_per_transaction_ms ++ ")" })

/-- The harness step `remove_execution_delay` (source lines 178-202): for every validator, set the
failpoint `aptos_vm::execution::block_metadata` to `"off"`. -/
def remove_execution_delay (validators : List String) : List SetFailpointCall :=
  validators.map (fun v =>
    { validator := v,
      name := "aptos_vm::execution::block_metadata",
      actions := "off" })


/-- The single-sender scenario of `test_single_sender_txns`: ten transactions all
sharing sender `0` (location `0` is the sender's account, read and written by every
transaction) with ten distinct receivers (locations `1 .. 10`). -/
def singleSenderBlock : List (AnalyzedTransaction Nat Nat) :=
  (List.range 10).map
    (fun k => { read_hints := [0, k + 1], write_hints := [0, k + 1], sender := some 0 })


/-! ### Reverse-scan characterization -/

theorem any_ext {α : Type} (l : List α) (f g : α → Bool) (h : ∀ x ∈ l, f x = g x) :
    l.any f = l.any g := by
  induction l with
  | nil => rfl
  | cons a t ih =>
    simp only [List.any_cons]
    rw [h a (List.mem_cons_self a t), ih (fun x hx => h x (List.mem_cons_of_mem a hx))]

theorem mem_dependentIndices {txns : List (AnalyzedTransaction L A)} {i j : Nat} :
    j ∈ dependentIndices txns i ↔
      j < txns.length ∧ j < i ∧ writeConflict (txnAt txns j) (txnAt txns i) = true := by
  simp [dependentIndices, List.mem_filter, List.mem_range, and_assoc]

theorem insertStatus_same (m : StatusMap) (i : Nat) (s : TxnPartitioningStatus) :
    insertStatus m i s i = some s := by
  simp [insertStatus]

theorem insertStatus_other (m : StatusMap) (i j : Nat) (s : TxnPartitioningStatus)
    (h : j ≠ i) : insertStatus m i s j = m j := by
  simp [insertStatus, h]

theorem reverseScanStep_deps_unassigned (txns : List (AnalyzedTransaction L A))
    (tps : Nat) (m : StatusMap) (i : Nat)
    (h : ∀ k ∈ dependentIndices txns i, m k = none) :
    reverseScanStep txns tps m i = insertStatus m i (revStatus txns tps i) := by
  unfold reverseScanStep revStatus revDiscarded
  have hfun : ∀ k ∈ dependentIndices txns i,
      (fun j =>
        match m j with
        | some TxnPartitioningStatus.Discarded => false
        | _ => decide (get_shard_for_index tps j ≠ get_shard_for_index tps i)) k
      = (fun j => decide (get_shard_for_index tps j ≠ get_shard_for_index tps i)) k := by
    intro k hk
    simp only [h k hk]
  rw [any_ext _ _ _ hfun]

theorem scan_foldr_eq (txns : List (AnalyzedTransaction L A)) (tps : Nat) :
    ∀ (n s : Nat) (m : StatusMap), (∀ j, j < s + n → m j = none) → ∀ j,
      ((List.range' s n).foldr (fun i mm => reverseScanStep txns tps mm i) m) j
        = if s ≤ j ∧ j < s + n then some (revStatus txns tps j) else m j := by
  intro n
  induction n with
  | zero =>
    intro s m _ j
    simp only [List.range', List.foldr_nil, Nat.add_zero]
    have : ¬(s ≤ j ∧ j < s) := by omega
    simp [this]
  | succ n ih =>
    intro s m hm j
    have hm' : ∀ j, j < (s + 1) + n → m j = none := by
      intro j hj; exact hm j (by omega)
    have hinner := ih (s + 1) m hm'
    simp only [List.range'_succ, List.foldr_cons]
    have hdeps : ∀ k ∈ dependentIndices txns s,
        ((List.range' (s + 1) n).foldr (fun i mm => reverseScanStep txns tps mm i) m) k
          = none := by
      intro k hk
      have hks : k < s := (mem_dependentIndices.mp hk).2.1
      rw [hinner k]
      have : ¬(s + 1 ≤ k ∧ k < s + 1 + n) := by omega
      simp only [this, if_false]
      exact hm k (by omega)
    rw [reverseScanStep_deps_unassigned txns tps _ s hdeps]
    by_cases hjs : j = s
    · subst hjs
      rw [insertStatus_same]
      have : j ≤ j ∧ j < j + (n + 1) := by omega
      simp [this]
    · rw [insertStatus_other _ _ _ _ hjs, hinner j]
      by_cases h1 : s + 1 ≤ j ∧ j < s + 1 + n
      · have h2 : s ≤ j ∧ j < s + (n + 1) := by omega
        simp [h1, h2]
      · have h2 : ¬(s ≤ j ∧ j < s + (n + 1)) := by omega
        simp only [h1, if_false, h2]

theorem reverseScan_eq (txns : List (AnalyzedTransaction L A)) (tps : Nat) (j : Nat) :
    reverseScan txns tps j
      = if j < txns.length then some (revStatus txns tps j) else none := by
  unfold reverseScan
  rw [List.foldl_reverse]
  have h := scan_foldr_eq txns tps txns.length 0 (fun _ => none) (fun _ _ => rfl) j
  rw [List.range_eq_range']
  simpa using h

theorem revDiscarded_iff (txns : List (AnalyzedTransaction L A)) (tps : Nat) (i : Nat) :
    revDiscarded txns tps i = true ↔
      ∃ j, j < txns.length ∧ j < i ∧ writeConflict (txnAt txns j) (txnAt txns i) = true ∧
        get_shard_for_index tps j ≠ get_shard_for_index tps i := by
  unfold revDiscarded
  rw [List.any_eq_true]
  constructor
  · rintro ⟨j, hj, hshard⟩
    rcases mem_dependentIndices.mp hj with ⟨h1, h2, h3⟩
    exact ⟨j, h1, h2, h3, of_decide_eq_true hshard⟩
  · rintro ⟨j, h1, h2, h3, h4⟩
    exact ⟨j, mem_dependentIndices.mpr ⟨h1, h2, h3⟩, decide_eq_true h4⟩

/-! ### Sender-pass characterization -/

theorem range_split (i n : Nat) (h : i ≤ n) :
    List.range n = List.range i ++ List.range' i (n - i) := by
  rw [List.range_eq_range', List.range_eq_range']
  have happ := List.range'_append 0 i (n - i) 1
  simp only [Nat.zero_add, Nat.one_mul] at happ
  have hn : n - i + i = n := by omega
  rw [hn] at happ
  exact happ.symm

theorem senderStep_fst_other (txns : List (AnalyzedTransaction L A))
    (st : StatusMap × List A) (i j : Nat) (h : j ≠ i) :
    (senderStep txns st i).1 j = st.1 j := by
  cases hsen : (txnAt txns i).sender with
  | none => simp [senderStep, hsen]
  | some s =>
    by_cases hmem : s ∈ st.2
    · simp [senderStep, hsen, hmem, insertStatus_other _ _ _ _ h]
    · by_cases hst : st.1 i = some TxnPartitioningStatus.Discarded
      · simp [senderStep, hsen, hmem, hst]
      · simp [senderStep, hsen, hmem, hst]

theorem senderStep_snd_mono (txns : List (AnalyzedTransaction L A))
    (st : StatusMap × List A) (i : Nat) {s : A} (h : s ∈ st.2) :
    s ∈ (senderStep txns st i).2 := by
  cases hsen : (txnAt txns i).sender with
  | none => simpa [senderStep, hsen] using h
  | some a =>
    by_cases hmem : a ∈ st.2
    · simpa [senderStep, hsen, hmem] using h
    · by_cases hst : st.1 i = some TxnPartitioningStatus.Discarded
      · simp only [senderStep, hsen, hmem, if_false, hst, if_true]
        exact List.mem_cons_of_mem a h
      · simpa [senderStep, hsen, hmem, hst] using h

theorem foldl_senderStep_fst (txns : List (AnalyzedTransaction L A)) :
    ∀ (l : List Nat) (st : StatusMap × List A) (i : Nat), i ∉ l →
      (l.foldl (senderStep txns) st).1 i = st.1 i := by
  intro l
  induction l with
  | nil => intro st i _; rfl
  | cons a t ih =>
    intro st i hi
    have hia : i ≠ a := fun hh => hi (hh ▸ List.mem_cons_self a t)
    have hit : i ∉ t := fun hh => hi (List.mem_cons_of_mem a hh)
    rw [List.foldl_cons, ih _ i hit, senderStep_fst_other txns st a i hia]

theorem foldl_senderStep_snd (txns : List (AnalyzedTransaction L A)) :
    ∀ (l : List Nat) (st : StatusMap × List A) {s : A}, s ∈ st.2 →
      s ∈ (l.foldl (senderStep txns) st).2 := by
  intro l
  induction l with
  | nil => intro st s h; exact h
  | cons a t ih =>
    intro st s h
    rw [List.foldl_cons]
    exact ih _ (senderStep_snd_mono txns st a h)

theorem senderPass_status (txns : List (AnalyzedTransaction L A)) (m0 : StatusMap)
    (i : Nat) (h : i < txns.length) :
    (senderPass txns m0).1 i =
      match (txnAt txns i).sender with
      | some s =>
          if s ∈ sendersBefore txns m0 i then some TxnPartitioningStatus.Discarded
          else m0 i
      | none => m0 i := by
  unfold senderPass
  rw [range_split (i + 1) txns.length (by omega), List.foldl_append,
      List.range_succ, List.foldl_append,
      foldl_senderStep_fst txns _ _ i
        (by intro hmem; rw [List.mem_range'] at hmem; obtain ⟨k, hk, hik⟩ := hmem; omega)]
  simp only [List.foldl_cons, List.foldl_nil]
  have hst1 : ((List.range i).foldl (senderStep txns) (m0, ([] : List A))).1 i = m0 i :=
    foldl_senderStep_fst txns _ _ i (by simp [List.mem_range])
  unfold sendersBefore
  cases hsen : (txnAt txns i).sender with
  | none => simp [senderStep, hsen, hst1]
  | some s =>
    by_cases hmem : s ∈ ((List.range i).foldl (senderStep txns) (m0, ([] : List A))).2
    · simp [senderStep, hsen, hmem, insertStatus_same]
    · by_cases hst : ((List.range i).foldl (senderStep txns) (m0, ([] : List A))).1 i
          = some TxnPartitioningStatus.Discarded
      · have hm0d : m0 i = some TxnPartitioningStatus.Discarded := hst1.symm.trans hst
        simp [senderStep, hsen, hmem, hst, hm0d]
      · have hm0d : ¬ m0 i = some TxnPartitioningStatus.Discarded :=
          fun hh => hst (hst1.trans hh)
        simp [senderStep, hsen, hmem, hst, hm0d, hst1]

theorem sendersBefore_succ (txns : List (AnalyzedTransaction L A)) (m0 : StatusMap)
    (i : Nat) :
    sendersBefore txns m0 (i + 1)
      = (senderStep txns ((List.range i).foldl (senderStep txns) (m0, [])) i).2 := by
  unfold sendersBefore
  rw [List.range_succ, List.foldl_append]
  simp only [List.foldl_cons, List.foldl_nil]

theorem sendersBefore_mono (txns : List (AnalyzedTransaction L A)) (m0 : StatusMap)
    {i j : Nat} (hij : i ≤ j) {s : A}
    (hs : s ∈ sendersBefore txns m0 i) : s ∈ sendersBefore txns m0 j := by
  unfold sendersBefore at *
  rw [range_split i j hij, List.foldl_append]
  exact foldl_senderStep_snd txns _ _ hs

theorem sender_inserted (txns : List (AnalyzedTransaction L A)) (m0 : StatusMap)
    (i : Nat) (s : A) (h : i < txns.length)
    (hsen : (txnAt txns i).sender = some s)
    (hd : (senderPass txns m0).1 i = some TxnPartitioningStatus.Discarded) :
    s ∈ sendersBefore txns m0 (i + 1) := by
  have hstat := senderPass_status txns m0 i h
  rw [hsen] at hstat
  by_cases hmem : s ∈ sendersBefore txns m0 i
  · exact sendersBefore_mono txns m0 (by omega) hmem
  · rw [hd] at hstat
    simp only [hmem, if_false] at hstat
    rw [sendersBefore_succ]
    have hst1 : ((List.range i).foldl (senderStep txns) (m0, ([] : List A))).1 i = m0 i :=
      foldl_senderStep_fst txns _ _ i (by simp [List.mem_range])
    have hmem' : s ∉ ((List.range i).foldl (senderStep txns) (m0, ([] : List A))).2 := hmem
    have hd1 : ((List.range i).foldl (senderStep txns) (m0, ([] : List A))).1 i
        = some TxnPartitioningStatus.Discarded := hst1.trans hstat.symm
    simp [senderStep, hsen, hmem', hd1]

/-! ### Final-map bucketing characterization -/

theorem lookup_pushToShard {T : Type} (mp : ShardMap T) (sh : Nat) (t : T) (s : Nat) :
    lookupShard (pushToShard mp sh t) s =
      if s = sh then some (((lookupShard mp sh).getD []) ++ [t]) else lookupShard mp s := by
  induction mp with
  | nil =>
    by_cases hs : s = sh
    · subst hs; simp [pushToShard, lookupShard]
    · have hs' : ¬ sh = s := fun hh => hs hh.symm
      simp [pushToShard, lookupShard, hs, hs']
  | cons a rest ih =>
    obtain ⟨k, l⟩ := a
    by_cases h1 : k = sh
    · subst h1
      by_cases hs : s = k
      · subst hs
        simp [pushToShard, lookupShard]
      · have hs' : ¬ k = s := fun hh => hs hh.symm
        simp [pushToShard, lookupShard, hs, hs']
    · by_cases h2 : k = s
      · have hs : ¬ s = sh := fun hh => h1 (h2.trans hh)
        simp [pushToShard, lookupShard, h1, h2, hs]
      · simp [pushToShard, lookupShard, h1, h2, ih]

theorem lookup_bucketGo_getD {T : Type} (tps : Nat) :
    ∀ (ps : List (Nat × T)) (acc : ShardMap T) (s : Nat),
      (lookupShard
          (ps.foldl (fun a p => pushToShard a (get_shard_for_index tps p.1) p.2) acc) s).getD []
        = (lookupShard acc s).getD []
          ++ ((ps.filter (fun p => decide (get_shard_for_index tps p.1 = s))).map Prod.snd) := by
  intro ps
  induction ps with
  | nil => intro acc s; simp
  | cons p rest ih =>
    intro acc s
    rw [List.foldl_cons, ih, List.filter_cons]
    simp only [decide_eq_true_eq]
    by_cases hs : get_shard_for_index tps p.1 = s
    · rw [if_pos hs, List.map_cons, lookup_pushToShard, if_pos hs.symm]
      simp [hs, List.append_assoc]
    · rw [if_neg hs, lookup_pushToShard, if_neg (fun hh => hs hh.symm)]

theorem lookup_bucketGo_none {T : Type} (tps : Nat) :
    ∀ (ps : List (Nat × T)) (acc : ShardMap T) (s : Nat),
      lookupShard
          (ps.foldl (fun a p => pushToShard a (get_shard_for_index tps p.1) p.2) acc) s = none
        ↔ lookupShard acc s = none
          ∧ (ps.filter (fun p => decide (get_shard_for_index tps p.1 = s))) = [] := by
  intro ps
  induction ps with
  | nil => intro acc s; simp
  | cons p rest ih =>
    intro acc s
    rw [List.foldl_cons, ih, List.filter_cons]
    simp only [decide_eq_true_eq]
    by_cases hs : get_shard_for_index tps p.1 = s
    · rw [if_pos hs, lookup_pushToShard, if_pos hs.symm]
      simp
    · rw [if_neg hs, lookup_pushToShard, if_neg (fun hh => hs hh.symm)]

theorem lookup_bucketGo_optList {T : Type} (tps : Nat) (qs : List (Nat × T)) (s : Nat) :
    lookupShard (qs.foldl (fun a p => pushToShard a (get_shard_for_index tps p.1) p.2) []) s
      = optList ((qs.filter (fun p => decide (get_shard_for_index tps p.1 = s))).map Prod.snd) := by
  have hgetD := lookup_bucketGo_getD tps qs [] s
  have hnone := lookup_bucketGo_none tps qs [] s
  cases hl : lookupShard
      (qs.foldl (fun a p => pushToShard a (get_shard_for_index tps p.1) p.2) []) s with
  | none =>
    rw [hl] at hnone
    have hfilt := (hnone.mp rfl).2
    rw [hfilt]
    rfl
  | some l =>
    rw [hl] at hgetD hnone
    have hl2 : l = (qs.filter (fun p => decide (get_shard_for_index tps p.1 = s))).map Prod.snd := by
      simpa [lookupShard] using hgetD
    have hne : (qs.filter (fun p => decide (get_shard_for_index tps p.1 = s))) ≠ [] := by
      intro hh
      have : (some l : Option (List T)) = none := hnone.mpr ⟨rfl, hh⟩
      cases this
    rw [hl2]
    cases hcase : (qs.filter (fun p => decide (get_shard_for_index tps p.1 = s))).map Prod.snd with
    | nil =>
      exact absurd (List.map_eq_nil_iff.mp hcase) hne
    | cons x xs =>
      rfl

theorem foldl_statusStep_split {T : Type} (m : StatusMap) (tps : Nat) :
    ∀ (ps : List (Nat × T)) (accA accR : ShardMap T),
      ps.foldl (statusStep m tps) (accA, accR)
        = ((ps.filter (fun p => decide (m p.1 = some TxnPartitioningStatus.Accepted))).foldl
             (fun a p => pushToShard a (get_shard_for_index tps p.1) p.2) accA,
           (ps.filter (fun p => decide (m p.1 = some TxnPartitioningStatus.Discarded))).foldl
             (fun a p => pushToShard a (get_shard_for_index tps p.1) p.2) accR) := by
  intro ps
  induction ps with
  | nil => intro accA accR; simp
  | cons p rest ih =>
    intro accA accR
    rw [List.foldl_cons, List.filter_cons, List.filter_cons]
    cases hm : m p.1 with
    | none => simp [statusStep, hm, ih]
    | some st =>
      cases st with
      | Accepted => simp [statusStep, hm, ih]
      | Discarded => simp [statusStep, hm, ih]

theorem lookup_finalMaps_accepted (txns : List (AnalyzedTransaction L A))
    (m : StatusMap) (tps : Nat) (s : Nat) :
    lookupShard (finalMaps txns m tps).1 s
      = optList ((((enumTxns txns).filter
            (fun p => decide (m p.1 = some TxnPartitioningStatus.Accepted))).filter
            (fun p => decide (get_shard_for_index tps p.1 = s))).map Prod.snd) := by
  unfold finalMaps
  rw [foldl_statusStep_split]
  exact lookup_bucketGo_optList tps _ s

theorem lookup_finalMaps_rejected (txns : List (AnalyzedTransaction L A))
    (m : StatusMap) (tps : Nat) (s : Nat) :
    lookupShard (finalMaps txns m tps).2 s
      = optList ((((enumTxns txns).filter
            (fun p => decide (m p.1 = some TxnPartitioningStatus.Discarded))).filter
            (fun p => decide (get_shard_for_index tps p.1 = s))).map Prod.snd) := by
  unfold finalMaps
  rw [foldl_statusStep_split]
  exact lookup_bucketGo_optList tps _ s

/-! ### Partitioner facts used by the claims -/

theorem finalStatusMap_total (txns : List (AnalyzedTransaction L A)) (num_shards i : Nat)
    (h : i < txns.length) : finalStatusMap txns num_shards i ≠ none := by
  have hm0 : reverseScan txns (txnsPerShard txns.length num_shards) i ≠ none := by
    rw [reverseScan_eq, if_pos h]
    intro hh
    cases hh
  unfold finalStatusMap
  rw [senderPass_status _ _ i h]
  cases hsen : (txnAt txns i).sender with
  | none => simpa using hm0
  | some s =>
    by_cases hmem : s ∈ sendersBefore txns
        (reverseScan txns (txnsPerShard txns.length num_shards)) i
    · simp [hmem]
    · simpa [hmem] using hm0

theorem finalStatus_accepted_rev (txns : List (AnalyzedTransaction L A))
    (num_shards i : Nat) (h : i < txns.length)
    (ha : finalStatusMap txns num_shards i = some TxnPartitioningStatus.Accepted) :
    reverseScan txns (txnsPerShard txns.length num_shards) i
      = some TxnPartitioningStatus.Accepted := by
  unfold finalStatusMap at ha
  rw [senderPass_status _ _ i h] at ha
  cases hsen : (txnAt txns i).sender with
  | none => rw [hsen] at ha; exact ha
  | some s =>
    rw [hsen] at ha
    by_cases hmem : s ∈ sendersBefore txns
        (reverseScan txns (txnsPerShard txns.length num_shards)) i
    · simp only [hmem, if_true] at ha
      cases ha
    · simpa [hmem] using ha

theorem rev_accepted_no_conflict (txns : List (AnalyzedTransaction L A)) (tps : Nat)
    {i j : Nat} (hj : j < txns.length)
    (hacc : reverseScan txns tps j = some TxnPartitioningStatus.Accepted)
    (hij : i < j) (hiN : i < txns.length)
    (hconf : writeConflict (txnAt txns i) (txnAt txns j) = true) :
    get_shard_for_index tps i = get_shard_for_index tps j := by
  rw [reverseScan_eq, if_pos hj] at hacc
  have h2 : revStatus txns tps j = TxnPartitioningStatus.Accepted := Option.some.inj hacc
  by_contra hne
  have hd : revDiscarded txns tps j = true :=
    (revDiscarded_iff txns tps j).mpr ⟨i, hiN, hij, hconf, hne⟩
  simp [revStatus, hd] at h2

theorem eq_of_optList_eq_some {T : Type} {X l : List T} (h : optList X = some l) :
    X = l := by
  cases X with
  | nil => cases h
  | cons a b => exact Option.some.inj h

theorem mem_accepted_lookup (txns : List (AnalyzedTransaction L A)) (num_shards : Nat)
    {s : Nat} {l : List (AnalyzedTransaction L A)} (h0 : ¬ txns.length = 0)
    (hl : lookupShard (partition txns num_shards).1 s = some l)
    {t : AnalyzedTransaction L A} (ht : t ∈ l) :
    ∃ i, i < txns.length ∧ t = txnAt txns i ∧
      finalStatusMap txns num_shards i = some TxnPartitioningStatus.Accepted ∧
      get_shard_for_index (txnsPerShard txns.length num_shards) i = s := by
  unfold partition at hl
  rw [if_neg h0, lookup_finalMaps_accepted] at hl
  have hX := eq_of_optList_eq_some hl
  rw [← hX] at ht
  obtain ⟨p, hp, hpt⟩ := List.mem_map.mp ht
  obtain ⟨hp1, hp2⟩ := List.mem_filter.mp hp
  obtain ⟨hp3, hp4⟩ := List.mem_filter.mp hp1
  obtain ⟨idx, hidx, hif⟩ := List.mem_map.mp hp3
  refine ⟨idx, List.mem_range.mp hidx, ?_, ?_, ?_⟩
  · rw [← hpt, ← hif]
  · have := of_decide_eq_true hp4
    rw [← hif] at this
    exact this
  · have := of_decide_eq_true hp2
    rw [← hif] at this
    exact this

/-! ### Claims about the partitioner -/

/-- C1 counterexample: for the two-transaction block `[t0, t1]` with `t0` only reading
location `0` and `t1` writing location `0`, and `num_shards = 2`, both transactions are
accepted, `t0` into shard 0 and `t1` into shard 1, yet they share storage location `0`
across `t0`'s read hints and `t1`'s write hints — so the claim that no two accepted
transactions in different shards share a location across read and write hints fails. -/
theorem claim_C1_counterexample :
    lookupShard (partition
        [({ read_hints := [0], write_hints := [], sender := none } : AnalyzedTransaction Nat Nat),
         { read_hints := [], write_hints := [0], sender := none }] 2).1 0
      = some [{ read_hints := [0], write_hints := [], sender := none }]
    ∧ lookupShard (partition
        [({ read_hints := [0], write_hints := [], sender := none } : AnalyzedTransaction Nat Nat),
         { read_hints := [], write_hints := [0], sender := none }] 2).1 1
      = some [{ read_hints := [], write_hints := [0], sender := none }]
    ∧ (0 : Nat) ∈ ({ read_hints := [0], write_hints := [], sender := none } :
        AnalyzedTransaction Nat Nat).read_hints
    ∧ (0 : Nat) ∈ ({ read_hints := [], write_hints := [0], sender := none } :
        AnalyzedTransaction Nat Nat).write_hints := by
  decide

/-- C1 (amended): partitioner safety as actually guaranteed by the code: for any two
transactions in the accepted output placed in different shards, no *write hint of the
earlier one* (the one in the lower shard) occurs among the read or write hints of the
later one.  (Sharing that involves no write of the earlier transaction — e.g. a read
hint of the earlier transaction equal to a write hint of the later one — is not
prevented, per the counterexample.) -/
theorem claim_C1_amended (txns : List (AnalyzedTransaction L A)) (num_shards : Nat)
    (s s' : Nat) (l l' : List (AnalyzedTransaction L A)) (t t' : AnalyzedTransaction L A)
    (hss : s < s')
    (hl : lookupShard (partition txns num_shards).1 s = some l)
    (hl' : lookupShard (partition txns num_shards).1 s' = some l')
    (ht : t ∈ l) (ht' : t' ∈ l') :
    ∀ loc, loc ∈ t.write_hints → loc ∉ t'.read_hints ∧ loc ∉ t'.write_hints := by
  have h0 : ¬ txns.length = 0 := by
    intro hh
    unfold partition at hl
    rw [if_pos hh] at hl
    simp [lookupShard] at hl
  obtain ⟨i, hiN, hti, hisA, hisS⟩ := mem_accepted_lookup txns num_shards h0 hl ht
  obtain ⟨j, hjN, htj, hjsA, hjsS⟩ := mem_accepted_lookup txns num_shards h0 hl' ht'
  have hij : i < j := by
    by_contra hge
    push_neg at hge
    have hmono : get_shard_for_index (txnsPerShard txns.length num_shards) j
        ≤ get_shard_for_index (txnsPerShard txns.length num_shards) i := by
      unfold get_shard_for_index
      exact Nat.div_le_div_right hge
    omega
  have hrevj := finalStatus_accepted_rev txns num_shards j hjN hjsA
  have hconf : writeConflict (txnAt txns i) (txnAt txns j) = false := by
    cases hb : writeConflict (txnAt txns i) (txnAt txns j) with
    | false => rfl
    | true =>
      have heq := rev_accepted_no_conflict txns (txnsPerShard txns.length num_shards)
        hjN hrevj hij hiN hb
      rw [hisS, hjsS] at heq
      omega
  intro loc hloc
  rw [hti] at hloc
  rw [htj]
  unfold writeConflict at hconf
  have hfa := List.any_eq_false.mp hconf loc hloc
  rw [Bool.or_eq_true, decide_eq_true_eq, decide_eq_true_eq] at hfa
  push_neg at hfa
  exact hfa

/-- Witness for C1 (amended): two non-conflicting transactions, two shards; both are
accepted into distinct shards and the theorem applies. -/
theorem claim_C1_witness :
    (0 : Nat) < 1
    ∧ lookupShard (partition
        [({ read_hints := [0], write_hints := [0], sender := some 0 } : AnalyzedTransaction Nat Nat),
         { read_hints := [1], write_hints := [1], sender := some 1 }] 2).1 0
      = some [{ read_hints := [0], write_hints := [0], sender := some 0 }]
    ∧ lookupShard (partition
        [({ read_hints := [0], write_hints := [0], sender := some 0 } : AnalyzedTransaction Nat Nat),
         { read_hints := [1], write_hints := [1], sender := some 1 }] 2).1 1
      = some [{ read_hints := [1], write_hints := [1], sender := some 1 }]
    ∧ (∀ loc : Nat,
        loc ∈ ({ read_hints := [0], write_hints := [0], sender := some 0 } :
          AnalyzedTransaction Nat Nat).write_hints →
        loc ∉ ({ read_hints := [1], write_hints := [1], sender := some 1 } :
          AnalyzedTransaction Nat Nat).read_hints ∧
        loc ∉ ({ read_hints := [1], write_hints := [1], sender := some 1 } :
          AnalyzedTransaction Nat Nat).write_hints) :=
  ⟨by decide, by decide, by decide,
    claim_C1_amended
      [({ read_hints := [0], write_hints := [0], sender := some 0 } : AnalyzedTransaction Nat Nat),
       { read_hints := [1], write_hints := [1], sender := some 1 }] 2 0 1
      [{ read_hints := [0], write_hints := [0], sender := some 0 }]
      [{ read_hints := [1], write_hints := [1], sender := some 1 }]
      { read_hints := [0], write_hints := [0], sender := some 0 }
      { read_hints := [1], write_hints := [1], sender := some 1 }
      (by decide) (by decide) (by decide) (by decide) (by decide)⟩

/-- C2: sender quarantine.  If the transaction at index `i` ends up discarded in the
final output and has sender `s`, then every transaction at a later index `j` with the
same sender is also discarded in the final output; and a transaction without a sender
is exempt from the forced discarding — its final status is exactly its reverse-scan
status. -/
theorem claim_C2 (txns : List (AnalyzedTransaction L A)) (num_shards : Nat) :
    (∀ i j : Nat, ∀ s : A, i < j → j < txns.length →
        finalStatusMap txns num_shards i = some TxnPartitioningStatus.Discarded →
        (txnAt txns i).sender = some s → (txnAt txns j).sender = some s →
        finalStatusMap txns num_shards j = some TxnPartitioningStatus.Discarded)
    ∧ (∀ i : Nat, i < txns.length → (txnAt txns i).sender = none →
        finalStatusMap txns num_shards i
          = reverseScan txns (txnsPerShard txns.length num_shards) i) := by
  constructor
  · intro i j s hij hj hd hsi hsj
    have hi : i < txns.length := by omega
    unfold finalStatusMap at hd
    have hins : s ∈ sendersBefore txns
        (reverseScan txns (txnsPerShard txns.length num_shards)) (i + 1) :=
      sender_inserted txns _ i s hi hsi hd
    have hmem : s ∈ sendersBefore txns
        (reverseScan txns (txnsPerShard txns.length num_shards)) j :=
      sendersBefore_mono txns _ (by omega) hins
    unfold finalStatusMap
    rw [senderPass_status _ _ j hj, hsj]
    simp [hmem]
  · intro i hi hs
    unfold finalStatusMap
    rw [senderPass_status _ _ i hi, hs]

/-- Witness for C2: a block of three identical same-sender conflicting transactions
with three shards; index 1 is discarded by the reverse scan, and the theorem forces
index 2 (same sender) to be discarded too. -/
theorem claim_C2_witness :
    (1 : Nat) < 2 ∧ (2 : Nat) < 3
    ∧ finalStatusMap
        [({ read_hints := [0], write_hints := [0], sender := some 0 } : AnalyzedTransaction Nat Nat),
         { read_hints := [0], write_hints := [0], sender := some 0 },
         { read_hints := [0], write_hints := [0], sender := some 0 }] 3 1
      = some TxnPartitioningStatus.Discarded
    ∧ finalStatusMap
        [({ read_hints := [0], write_hints := [0], sender := some 0 } : AnalyzedTransaction Nat Nat),
         { read_hints := [0], write_hints := [0], sender := some 0 },
         { read_hints := [0], write_hints := [0], sender := some 0 }] 3 2
      = some TxnPartitioningStatus.Discarded :=
  ⟨by decide, by decide, by decide,
    (claim_C2
      [({ read_hints := [0], write_hints := [0], sender := some 0 } : AnalyzedTransaction Nat Nat),
       { read_hints := [0], write_hints := [0], sender := some 0 },
       { read_hints := [0], write_hints := [0], sender := some 0 }] 3).1
      1 2 0 (by decide) (by decide) (by decide) (by decide) (by decide)⟩

/-- C3: positional bucketing.  For a non-empty block, the accepted map's list at any
shard `s` is exactly the input-ordered list of transactions whose final status is
`Accepted` and whose positional shard `index / ceil(N/S)` equals `s` (absent iff that
list is empty), the rejected map is the same with `Discarded`, and every index gets
exactly one of the two statuses — so every input transaction appears exactly once in
the union, in its positional shard, in input order. -/
theorem claim_C3 (txns : List (AnalyzedTransaction L A)) (num_shards : Nat)
    (h : txns ≠ []) (s : Nat) :
    lookupShard (partition txns num_shards).1 s
      = optList ((((enumTxns txns).filter
            (fun p => decide (finalStatusMap txns num_shards p.1
                = some TxnPartitioningStatus.Accepted))).filter
            (fun p => decide (get_shard_for_index (txnsPerShard txns.length num_shards) p.1
                = s))).map Prod.snd)
    ∧ lookupShard (partition txns num_shards).2 s
      = optList ((((enumTxns txns).filter
            (fun p => decide (finalStatusMap txns num_shards p.1
                = some TxnPartitioningStatus.Discarded))).filter
            (fun p => decide (get_shard_for_index (txnsPerShard txns.length num_shards) p.1
                = s))).map Prod.snd)
    ∧ ∀ i, i < txns.length →
        (finalStatusMap txns num_shards i = some TxnPartitioningStatus.Accepted
          ∧ ¬ finalStatusMap txns num_shards i = some TxnPartitioningStatus.Discarded)
        ∨ (finalStatusMap txns num_shards i = some TxnPartitioningStatus.Discarded
          ∧ ¬ finalStatusMap txns num_shards i = some TxnPartitioningStatus.Accepted) := by
  have h0 : ¬ txns.length = 0 := fun hh => h (List.length_eq_zero.mp hh)
  refine ⟨?_, ?_, ?_⟩
  · unfold partition
    rw [if_neg h0]
    exact lookup_finalMaps_accepted txns _ _ s
  · unfold partition
    rw [if_neg h0]
    exact lookup_finalMaps_rejected txns _ _ s
  · intro i hi
    cases hv : finalStatusMap txns num_shards i with
    | none => exact absurd hv (finalStatusMap_total txns num_shards i hi)
    | some st =>
      cases st with
      | Accepted => exact Or.inl ⟨rfl, by simp⟩
      | Discarded => exact Or.inr ⟨rfl, by simp⟩

/-- Witness for C3: a singleton block with one shard. -/
theorem claim_C3_witness :
    ([({ read_hints := [0], write_hints := [0], sender := some 0 } :
        AnalyzedTransaction Nat Nat)] ≠ [])
    ∧ lookupShard (partition
        [({ read_hints := [0], write_hints := [0], sender := some 0 } :
          AnalyzedTransaction Nat Nat)] 1).1 0
      = optList ((((enumTxns
            [({ read_hints := [0], write_hints := [0], sender := some 0 } :
              AnalyzedTransaction Nat Nat)]).filter
            (fun p => decide (finalStatusMap
                [({ read_hints := [0], write_hints := [0], sender := some 0 } :
                  AnalyzedTransaction Nat Nat)] 1 p.1
                = some TxnPartitioningStatus.Accepted))).filter
            (fun p => decide (get_shard_for_index (txnsPerShard 1 1) p.1 = 0))).map Prod.snd) :=
  ⟨by decide,
    ((claim_C3
      [({ read_hints := [0], write_hints := [0], sender := some 0 } :
        AnalyzedTransaction Nat Nat)] 1 (by decide) 0).1)⟩

/-- C4 counterexample: in the block `[t0, t1]` where `t0` writes location `0` and `t1`
reads it, with chunk size 1 (two shards), the reverse scan marks transaction 1
`Discarded` even though it has no dependent at an index `j > 1` at all — its dependent
list is `[0]`, i.e. the graph neighbours the scan inspects are *earlier* transactions,
refuting the claim that `i` is discarded exactly when some dependent `j > i` with
non-`Discarded` status lies in a different shard. -/
theorem claim_C4_counterexample :
    reverseScan
        [({ read_hints := [], write_hints := [0], sender := none } : AnalyzedTransaction Nat Nat),
         { read_hints := [0], write_hints := [], sender := none }]
        (txnsPerShard 2 2) 1 = some TxnPartitioningStatus.Discarded
    ∧ dependentIndices
        [({ read_hints := [], write_hints := [0], sender := none } : AnalyzedTransaction Nat Nat),
         { read_hints := [0], write_hints := [], sender := none }] 1 = [0] := by
  decide

/-- C4 (amended): in the reverse scan `i = N-1 … 0`, the graph neighbours of `i` are
the earlier transactions `j < i` whose write hints intersect `i`'s read or write
hints; their statuses are still unassigned when `i` is processed, so the
"skip already-`Discarded`" check never fires, and `i` is marked `Discarded` exactly
when some such `j < i` lies in a shard different from `shard(i)`; otherwise `i` is
marked `Accepted`. -/
theorem claim_C4_amended (txns : List (AnalyzedTransaction L A)) (tps : Nat) (i : Nat)
    (h : i < txns.length) :
    (reverseScan txns tps i = some TxnPartitioningStatus.Discarded ↔
      ∃ j, j < i ∧ writeConflict (txnAt txns j) (txnAt txns i) = true ∧
        get_shard_for_index tps j ≠ get_shard_for_index tps i)
    ∧ (reverseScan txns tps i = some TxnPartitioningStatus.Accepted ↔
      ¬ ∃ j, j < i ∧ writeConflict (txnAt txns j) (txnAt txns i) = true ∧
        get_shard_for_index tps j ≠ get_shard_for_index tps i) := by
  have hiff : revDiscarded txns tps i = true ↔
      ∃ j, j < i ∧ writeConflict (txnAt txns j) (txnAt txns i) = true ∧
        get_shard_for_index tps j ≠ get_shard_for_index tps i := by
    rw [revDiscarded_iff]
    constructor
    · rintro ⟨j, _, h2, h3, h4⟩
      exact ⟨j, h2, h3, h4⟩
    · rintro ⟨j, h2, h3, h4⟩
      exact ⟨j, by omega, h2, h3, h4⟩
  rw [reverseScan_eq, if_pos h]
  cases hb : revDiscarded txns tps i with
  | true =>
    have hEx := hiff.mp hb
    have hrs : revStatus txns tps i = TxnPartitioningStatus.Discarded := by
      simp [revStatus, hb]
    rw [hrs]
    refine ⟨⟨fun _ => hEx, fun _ => rfl⟩, ⟨fun ha => ?_, fun hno => absurd hEx hno⟩⟩
    simp at ha
  | false =>
    have hnEx : ¬ ∃ j, j < i ∧ writeConflict (txnAt txns j) (txnAt txns i) = true ∧
        get_shard_for_index tps j ≠ get_shard_for_index tps i := by
      intro hEx
      rw [hiff.mpr hEx] at hb
      cases hb
    have hrs : revStatus txns tps i = TxnPartitioningStatus.Accepted := by
      simp [revStatus, hb]
    rw [hrs]
    refine ⟨⟨fun ha => ?_, fun hEx => absurd hEx hnEx⟩, ⟨fun _ => hnEx, fun _ => rfl⟩⟩
    simp at ha

/-- Witness for C4 (amended): the counterexample block itself; transaction 1 is
discarded and the equivalence exhibits its earlier cross-shard conflicting
dependency. -/
theorem claim_C4_witness :
    (1 : Nat) < 2
    ∧ ((reverseScan
        [({ read_hints := [], write_hints := [0], sender := none } : AnalyzedTransaction Nat Nat),
         { read_hints := [0], write_hints := [], sender := none }] 1 1
          = some TxnPartitioningStatus.Discarded ↔
        ∃ j, j < 1 ∧ writeConflict
            (txnAt [({ read_hints := [], write_hints := [0], sender := none } :
              AnalyzedTransaction Nat Nat),
             { read_hints := [0], write_hints := [], sender := none }] j)
            (txnAt [({ read_hints := [], write_hints := [0], sender := none } :
              AnalyzedTransaction Nat Nat),
             { read_hints := [0], write_hints := [], sender := none }] 1) = true ∧
          get_shard_for_index 1 j ≠ get_shard_for_index 1 1)
      ∧ (reverseScan
          [({ read_hints := [], write_hints := [0], sender := none } : AnalyzedTransaction Nat Nat),
           { read_hints := [0], write_hints := [], sender := none }] 1 1
            = some TxnPartitioningStatus.Accepted ↔
        ¬ ∃ j, j < 1 ∧ writeConflict
            (txnAt [({ read_hints := [], write_hints := [0], sender := none } :
              AnalyzedTransaction Nat Nat),
             { read_hints := [0], write_hints := [], sender := none }] j)
            (txnAt [({ read_hints := [], write_hints := [0], sender := none } :
              AnalyzedTransaction Nat Nat),
             { read_hints := [0], write_hints := [], sender := none }] 1) = true ∧
          get_shard_for_index 1 j ≠ get_shard_for_index 1 1)) :=
  ⟨by decide,
    claim_C4_amended
      [({ read_hints := [], write_hints := [0], sender := none } : AnalyzedTransaction Nat Nat),
       { read_hints := [0], write_hints := [], sender := none }] 1 1 (by decide)⟩

/-- C5: single-sender scenario.  With 10 same-sender transactions and `num_shards = 4`
the chunk size is 3; the transactions at indices 0, 1, 2 are accepted into shard 0,
and those at indices 3-9 are discarded, landing in shards 1-3 of the rejected map; no
other shard appears in either map. -/
theorem claim_C5 :
    txnsPerShard singleSenderBlock.length 4 = 3
    ∧ lookupShard (partition singleSenderBlock 4).1 0
      = some [txnAt singleSenderBlock 0, txnAt singleSenderBlock 1, txnAt singleSenderBlock 2]
    ∧ lookupShard (partition singleSenderBlock 4).1 1 = none
    ∧ lookupShard (partition singleSenderBlock 4).1 2 = none
    ∧ lookupShard (partition singleSenderBlock 4).1 3 = none
    ∧ lookupShard (partition singleSenderBlock 4).2 0 = none
    ∧ lookupShard (partition singleSenderBlock 4).2 1
      = some [txnAt singleSenderBlock 3, txnAt singleSenderBlock 4, txnAt singleSenderBlock 5]
    ∧ lookupShard (partition singleSenderBlock 4).2 2
      = some [txnAt singleSenderBlock 6, txnAt singleSenderBlock 7, txnAt singleSenderBlock 8]
    ∧ lookupShard (partition singleSenderBlock 4).2 3
      = some [txnAt singleSenderBlock 9]
    ∧ (∀ i, i < 3 →
        finalStatusMap singleSenderBlock 4 i = some TxnPartitioningStatus.Accepted)
    ∧ (∀ i, 3 ≤ i → i < 10 →
        finalStatusMap singleSenderBlock 4 i = some TxnPartitioningStatus.Discarded) := by
  decide

/-- C10: totality of `partition`.  For every block and shard count (including
`num_shards = 0`) the chunk size is positive, so neither `get_shard_for_index` nor the
chunk computation can fault (the source computes the chunk with `f64` division, which
for `num_shards = 0` saturates to `usize::MAX` instead of raising an integer
division-by-zero panic, putting every transaction in shard 0); and both status-map
lookups that the source `.unwrap()`s — against the reverse-scan map and against the
final map — succeed for every index of the block. -/
theorem claim_C10 (txns : List (AnalyzedTransaction L A)) (num_shards i : Nat)
    (h : i < txns.length) :
    0 < txnsPerShard txns.length num_shards
    ∧ reverseScan txns (txnsPerShard txns.length num_shards) i ≠ none
    ∧ finalStatusMap txns num_shards i ≠ none
    ∧ (num_shards = 0 → txnsPerShard txns.length num_shards = 2 ^ 64 - 1)
    ∧ (num_shards = 0 → i < 2 ^ 64 - 1 →
        get_shard_for_index (txnsPerShard txns.length num_shards) i = 0) := by
  refine ⟨?_, ?_, finalStatusMap_total txns num_shards i h, ?_, ?_⟩
  · unfold txnsPerShard
    by_cases hS : num_shards = 0
    · rw [if_pos hS]
      norm_num
    · rw [if_neg hS]
      have hb : 0 < num_shards := Nat.pos_of_ne_zero hS
      exact Nat.div_pos (by omega) hb
  · rw [reverseScan_eq, if_pos h]
    intro hh
    cases hh
  · intro hS
    rw [txnsPerShard, if_pos hS]
  · intro hS hlt
    rw [txnsPerShard, if_pos hS]
    exact Nat.div_eq_of_lt hlt

/-- Witness for C10: a singleton block with `num_shards = 0`. -/
theorem claim_C10_witness :
    (0 : Nat) < 1
    ∧ (0 < txnsPerShard 1 0
      ∧ reverseScan
          [({ read_hints := [0], write_hints := [0], sender := some 0 } :
            AnalyzedTransaction Nat Nat)] (txnsPerShard 1 0) 0 ≠ none
      ∧ finalStatusMap
          [({ read_hints := [0], write_hints := [0], sender := some 0 } :
            AnalyzedTransaction Nat Nat)] 0 0 ≠ none
      ∧ ((0 : Nat) = 0 → txnsPerShard 1 0 = 2 ^ 64 - 1)
      ∧ ((0 : Nat) = 0 → (0 : Nat) < 2 ^ 64 - 1 →
          get_shard_for_index (txnsPerShard 1 0) 0 = 0)) :=
  ⟨by decide,
    claim_C10
      [({ read_hints := [0], write_hints := [0], sender := some 0 } :
        AnalyzedTransaction Nat Nat)] 0 0 (by decide)⟩

/-- C6: for every key that is a module path, `add_delta` is a fatal contract
violation: the `debug_assert!` contract (a delta may be stored only on the data half)
fires and execution halts — embedded as the error result — instead of any state with
the delta entry being produced. -/
theorem claim_C6 {K V D X : Type} [ModulePath K] (m : MVHashMap K V D X) (key : K)
    (txn_idx : Nat) (delta : D) (h : (ModulePath.module_path key).isSome = true) :
    m.add_delta key txn_idx delta
      = Except.error ("Delta must be stored at a path corresponding to data") := by
  unfold MVHashMap.add_delta
  rw [if_pos h]

/-- Witness for C6: a fresh store over `TestKey` and the module-path key. -/
theorem claim_C6_witness :
    (ModulePath.module_path TestKey.codeKey).isSome = true
    ∧ (MVHashMap.new none : MVHashMap TestKey Nat Nat Nat).add_delta TestKey.codeKey 0 5
      = Except.error ("Delta must be stored at a path corresponding to data") :=
  ⟨by decide,
    claim_C6 (MVHashMap.new none : MVHashMap TestKey Nat Nat Nat) TestKey.codeKey 0 5
      (by decide)⟩

/-- C7: the routing facade.  `write`, `mark_estimate` and `delete` dispatch on
`key.module_path()`: on a module-path key they forward to the code half (for `write`,
passing only `version.0`) and leave the data half untouched; on a non-module key they
forward to the data half and leave the code half untouched.  `fetch_data` is always
served by the data half, and `store_executable` and `fetch_code` always by the code
half. -/
theorem claim_C7 {K V D X : Type} [DecidableEq K] [ModulePath K]
    (m : MVHashMap K V D X) (key : K) (version : Version) (value : V)
    (txn_idx : Nat) (descriptor : ExecutableDescriptor) (executable : X) :
    ((ModulePath.module_path key).isSome = true →
      (m.write key version value).data = m.data
      ∧ (m.write key version value).code = m.code.write key version.1 value
      ∧ (m.mark_estimate key txn_idx).data = m.data
      ∧ (m.mark_estimate key txn_idx).code = m.code.mark_estimate key txn_idx
      ∧ (m.delete key txn_idx).data = m.data
      ∧ (m.delete key txn_idx).code = m.code.delete key txn_idx)
    ∧ ((ModulePath.module_path key).isSome = false →
      (m.write key version value).code = m.code
      ∧ (m.write key version value).data = m.data.write key version value
      ∧ (m.mark_estimate key txn_idx).code = m.code
      ∧ (m.mark_estimate key txn_idx).data = m.data.mark_estimate key txn_idx
      ∧ (m.delete key txn_idx).code = m.code
      ∧ (m.delete key txn_idx).data = m.data.delete key txn_idx)
    ∧ m.fetch_data key txn_idx = m.data.fetch_data key txn_idx
    ∧ (m.store_executable key descriptor executable).data = m.data
    ∧ (m.store_executable key descriptor executable).code
        = m.code.store_executable key descriptor executable
    ∧ m.fetch_code key txn_idx = m.code.fetch_code key txn_idx := by
  refine ⟨?_, ?_, rfl, rfl, rfl, rfl⟩
  · intro h
    cases hk : ModulePath.module_path key with
    | none => rw [hk] at h; cases h
    | some p =>
      exact ⟨by simp [MVHashMap.write, hk], by simp [MVHashMap.write, hk],
        by simp [MVHashMap.mark_estimate, hk], by simp [MVHashMap.mark_estimate, hk],
        by simp [MVHashMap.delete, hk], by simp [MVHashMap.delete, hk]⟩
  · intro h
    cases hk : ModulePath.module_path key with
    | some p => rw [hk] at h; cases h
    | none =>
      exact ⟨by simp [MVHashMap.write, hk], by simp [MVHashMap.write, hk],
        by simp [MVHashMap.mark_estimate, hk], by simp [MVHashMap.mark_estimate, hk],
        by simp [MVHashMap.delete, hk], by simp [MVHashMap.delete, hk]⟩

/-- Witness for C7: the facade over `TestKey` at the module-path key, with a fresh
store. -/
theorem claim_C7_witness :
    (ModulePath.module_path TestKey.codeKey).isSome = true
    ∧ (((MVHashMap.new none : MVHashMap TestKey Nat Nat Nat).write TestKey.codeKey (2, 3) 7).data
        = (MVHashMap.new none : MVHashMap TestKey Nat Nat Nat).data
      ∧ ((MVHashMap.new none : MVHashMap TestKey Nat Nat Nat).write TestKey.codeKey (2, 3) 7).code
        = (MVHashMap.new none : MVHashMap TestKey Nat Nat Nat).code.write TestKey.codeKey
            (Prod.fst ((2, 3) : Nat × Nat)) 7
      ∧ (((MVHashMap.new none : MVHashMap TestKey Nat Nat Nat).mark_estimate TestKey.codeKey 4).data
        = (MVHashMap.new none : MVHashMap TestKey Nat Nat Nat).data)
      ∧ (((MVHashMap.new none : MVHashMap TestKey Nat Nat Nat).mark_estimate TestKey.codeKey 4).code
        = (MVHashMap.new none : MVHashMap TestKey Nat Nat Nat).code.mark_estimate TestKey.codeKey 4)
      ∧ (((MVHashMap.new none : MVHashMap TestKey Nat Nat Nat).delete TestKey.codeKey 4).data
        = (MVHashMap.new none : MVHashMap TestKey Nat Nat Nat).data)
      ∧ (((MVHashMap.new none : MVHashMap TestKey Nat Nat Nat).delete TestKey.codeKey 4).code
        = (MVHashMap.new none : MVHashMap TestKey Nat Nat Nat).code.delete TestKey.codeKey 4)) :=
  ⟨by decide,
    (claim_C7 (MVHashMap.new none : MVHashMap TestKey Nat Nat Nat) TestKey.codeKey (2, 3) 7 4
      ExecutableDescriptor.StorageVersion 9).1 (by decide)⟩

/-- C8: code-cache handoff round trip.  `take()` returns both halves;
`MVHashMap::new(Some(c))` yields a store whose code half is exactly `c` and whose data
half is fresh; `MVHashMap::new(None)` — which is also `Default` — starts from the
empty code cache; hence the code half obtained from `take()` and passed to the next
constructor is preserved across blocks. -/
theorem claim_C8 {K V D X : Type} (c : VersionedCode K V X) (m : MVHashMap K V D X) :
    (MVHashMap.new (some c) : MVHashMap K V D X).code = c
    ∧ (MVHashMap.new (some c) : MVHashMap K V D X).data = VersionedData.new
    ∧ (MVHashMap.new none : MVHashMap K V D X).code = (⟨[]⟩ : VersionedCode K V X)
    ∧ (default : MVHashMap K V D X) = MVHashMap.new none
    ∧ m.take = (m.data, m.code)
    ∧ (MVHashMap.new (some m.take.2) : MVHashMap K V D X).code = m.code
    ∧ (MVHashMap.new (some m.take.2) : MVHashMap K V D X).data = VersionedData.new :=
  ⟨rfl, rfl, rfl, rfl, rfl, rfl, rfl⟩

/-- C9: `add_execution_delay` sets the failpoint named
`aptos_vm::execution::user_transaction` on every validator, while
`remove_execution_delay` sets the different failpoint
`aptos_vm::execution::block_metadata` to `"off"` on every validator — the remove step
clears a failpoint other than the one the add step set. -/
theorem claim_C9 (validators : List String) (sleep_fraction : String → Nat)
    (ms : Nat) :
    (∀ c ∈ add_execution_delay validators sleep_fraction ms,
      c.name = "aptos_vm::execution::user_transaction")
    ∧ (∀ c ∈ remove_execution_delay validators,
      c.name = "aptos_vm::execution::block_metadata" ∧ c.actions = "off")
    ∧ "aptos_vm::execution::user_transaction" ≠ "aptos_vm::execution::block_metadata" := by
  refine ⟨?_, ?_, by decide⟩
  · intro c hc
    obtain ⟨v, _, hv⟩ := List.mem_map.mp hc
    rw [← hv]
  · intro c hc
    obtain ⟨v, _, hv⟩ := List.mem_map.mp hc
    rw [← hv]
    exact ⟨rfl, rfl⟩

/-- Witness for C9: a single validator; the calls produced by the two functions name
the two distinct failpoints. -/
theorem claim_C9_witness :
    (({ validator := "v0", name := "aptos_vm::execution::block_metadata",
          actions := "off" } : SetFailpointCall) ∈ remove_execution_delay ["v0"])
    ∧ (({ validator := "v0", name := "aptos_vm::execution::block_metadata",
            actions := "off" } : SetFailpointCall).name
        = "aptos_vm::execution::block_metadata"
      ∧ ({ validator := "v0", name := "aptos_vm::execution::block_metadata",
            actions := "off" } : SetFailpointCall).actions = "off") :=
  ⟨by decide,
    (claim_C9 ["v0"] (fun _ => 40) 1).2.1
      { validator := "v0", name := "aptos_vm::execution::block_metadata", actions := "off" }
      (by decide)⟩
